import Mathlib

/-!
Verification development for the mbtiles-compress pipeline.

The definitions below are a shallow embedding of the repository's code:
- `run` embeds the `run` function of `src/unnamed/part_000` (the module
  `src/cli.js` imports as `./index.js`): schema replication, bulk copy,
  the transcode/dedup loop, and the finalization pragmas.  Database writes
  are modelled as pure state (`RunState`) plus an operation trace
  (`List Op`) listing, in program order, the statements `run` executes
  against the two SQLite databases.
- `cliAction` embeds the option validation and filesystem preparation of
  `src/cli.js` (lines 31-78), with the filesystem abstracted as the pair
  of predicates `existsSync` / `isFile` that the code consults and the
  performed mutations recorded as a list of `FsEffect`s.
- `LimStep` embeds the bounded-concurrency admission loop of
  `src/unnamed/part_000` lines 101-132: the coordinator admits a task
  only when fewer than `concurrency` promises are active (the code
  `await`s `Promise.race(activePromises)` when the set is full, and a
  promise deletes itself from the set as part of settling, so after the
  await strictly fewer than `concurrency` tasks are active).

External collaborators are abstracted exactly at their interfaces:
the WebP codec (`imagemin`) is a parameter `c : Codec` returning bytes or
a failure message, and the MD5 content addresser is a parameter
`dF : List Nat → String` (the code's `md5_hex`).
-/

/-- Raw image bytes, abstracted as a list of byte values. -/
abbrev Bytes := List Nat

/-- The codec interface of `compressTile`: bytes in, transcoded bytes out,
or a failure carrying the error message (`imagemin` rejection). -/
abbrev Codec := Bytes → Except String Bytes

/-- A row of `SELECT name, type, sql FROM sqlite_master` on the source. -/
structure SchemaObject where
  name : String
  type_ : String
  sql : Option String
deriving DecidableEq

/-- A row of `SELECT zoom_level, tile_column, tile_row, tile_data FROM tiles`
on the source archive. -/
structure Tile where
  zoom_level : Int
  tile_column : Int
  tile_row : Int
  tile_data : Bytes
deriving DecidableEq

/-- A row of the destination `map` table as written by the prepared
statement `INSERT INTO map (zoom_level, tile_column, tile_row, tile_id,
grid_id) VALUES (?, ?, ?, ?, null)`. -/
structure MapRow where
  zoom_level : Int
  tile_column : Int
  tile_row : Int
  tile_id : String
  grid_id : Option Int
deriving DecidableEq

/-- The source archive as `run` observes it: its `sqlite_master` rows, the
result of `SELECT COUNT(*) FROM map`, and the rows of the `tiles` view. -/
structure SourceDb where
  schema : List SchemaObject
  mapCount : Nat
  tiles : List Tile
deriving DecidableEq

/-- The database statements `run` issues, in program order.  `dropIndex` is
part of the vocabulary so that spec sentences about dropping an index can
be stated; `run` itself never emits it. -/
inductive Op where
  | pragmaWal
  | execSchema (type_ name : String)
  | attachSource
  | copyTable (name : String)
  | detachSource
  | countMap
  | insertImage (tileId : String)
  | insertMap (zoom col row : Int) (tileId : String)
  | dropIndex (name : String)
  | pragmaOptimize
  | analyze
  | vacuum
deriving DecidableEq

/-- Mutable run state: destination `images` rows (tile_id, tile_data),
destination `map` rows, the `processed` and `failed` counters, and the
per-tile warnings (coordinates and failure reason) printed by the
`.catch` handler. -/
structure RunState where
  images : List (String × Bytes)
  map : List MapRow
  processed : Nat
  failed : Nat
  warnings : List (Int × Int × Int × String)
deriving DecidableEq

/-- Result of a run: final state plus the trace of database operations. -/
structure RunResult where
  state : RunState
  ops : List Op
deriving DecidableEq

/-- `INSERT OR IGNORE INTO images (tile_id, tile_data) VALUES (?, ?)`:
given the unique key on `images.tile_id` replicated from the source
schema, the insert is a no-op when a row with the digest already exists
and appends the row otherwise. -/
def insertImageIfAbsent (imgs : List (String × Bytes)) (id : String) (b : Bytes) :
    List (String × Bytes) :=
  if imgs.any (fun p => p.1 == id) then imgs else imgs ++ [(id, b)]

/-- One iteration of the transcode loop for one tile: on codec success the
digest is computed (`md5_hex`), the image row is inserted (OR IGNORE) and
the map row is inserted with `grid_id` null; on failure the tile is
counted as failed and a warning is recorded.  `processed` increments in
both cases (the `.finally` handler). -/
def stepTile (dF : Bytes → String) (c : Codec) (s : RunState) (t : Tile) : RunState :=
  match c t.tile_data with
  | .ok b =>
      { s with
        images := insertImageIfAbsent s.images (dF b) b
        map := s.map ++ [⟨t.zoom_level, t.tile_column, t.tile_row, dF b, none⟩]
        processed := s.processed + 1 }
  | .error m =>
      { s with
        failed := s.failed + 1
        processed := s.processed + 1
        warnings := s.warnings ++ [(t.zoom_level, t.tile_column, t.tile_row, m)] }

/-- The destination writes one tile issues: `insertTile.run` is evaluated
before `insertMap.run` (the two synchronous statement executions inside
`Promise.all([...])`, evaluated left to right), so the image insert
always precedes the map insert for that item; a failed tile issues no
writes. -/
def opsForTile (dF : Bytes → String) (c : Codec) (t : Tile) : List Op :=
  match c t.tile_data with
  | .ok b => [Op.insertImage (dF b), Op.insertMap t.zoom_level t.tile_column t.tile_row (dF b)]
  | .error _ => []

/-- The transcode loop over all tiles (destination writes are serialized by
the synchronous driver; per-item effects are applied atomically in
completion order, modelled here in source order). -/
def transcodeFold (dF : Bytes → String) (c : Codec) (tiles : List Tile) (s : RunState) :
    RunState :=
  tiles.foldl (stepTile dF c) s

/-- The destination-write trace of the transcode loop. -/
def transcodeOps (dF : Bytes → String) (c : Codec) (tiles : List Tile) : List Op :=
  tiles.flatMap (opsForTile dF c)

/-- Lines 59-63: `if (type == 'table' && sql) destDb.exec(sql)`. -/
def tableCreateOps (objects : List SchemaObject) : List Op :=
  objects.filterMap fun o =>
    if o.type_ == "table" && o.sql.isSome then some (Op.execSchema o.type_ o.name) else none

/-- Lines 67-71: copy every table except `images` and `map`. -/
def copyTableOps (objects : List SchemaObject) : List Op :=
  objects.filterMap fun o =>
    if o.type_ == "table" && o.name != "images" && o.name != "map" then
      some (Op.copyTable o.name)
    else none

/-- Lines 75-79: `if (type !== 'table' && sql) destDb.exec(sql)` (indexes,
views, triggers), executed after the bulk copy. -/
def nonTableOps (objects : List SchemaObject) : List Op :=
  objects.filterMap fun o =>
    if o.type_ != "table" && o.sql.isSome then some (Op.execSchema o.type_ o.name) else none

/-- The schema-replication trace, in the code's order: create tables,
attach + copy non-image/map tables + detach, then create non-table
objects. -/
def schemaOps (objects : List SchemaObject) : List Op :=
  tableCreateOps objects ++ [Op.attachSource] ++ copyTableOps objects
    ++ [Op.detachSource] ++ nonTableOps objects

/-- Initial run state: empty destination, zero counters. -/
def initState : RunState :=
  { images := [], map := [], processed := 0, failed := 0, warnings := [] }

/-- Shallow embedding of `run` (src/unnamed/part_000 lines 40-153):
WAL pragma, schema replication, the upfront `SELECT COUNT(*) FROM map`,
the transcode loop, then `PRAGMA optimize`, `ANALYZE`, `VACUUM`. -/
def run (dF : Bytes → String) (c : Codec) (src : SourceDb) : RunResult :=
  { state := transcodeFold dF c src.tiles initState
    ops := Op.pragmaWal ::
      (schemaOps src.schema ++ [Op.countMap] ++ transcodeOps dF c src.tiles
        ++ [Op.pragmaOptimize, Op.analyze, Op.vacuum]) }

/-- The call `run(source, destination, quality, alphaQuality, method,
concurrency, skipCount)` made by `src/cli.js` line 70-78: `run` in
part_000 declares no `skipCount` parameter, so the extra JavaScript
argument is silently dropped and the behaviour is identical for both
flag values. -/
def cliRun (_skipCount : Bool) (dF : Bytes → String) (c : Codec) (src : SourceDb) : RunResult :=
  run dF c src

/-- The digest of a successful transcode of one tile, if any. -/
def digestFor (dF : Bytes → String) (c : Codec) (t : Tile) : Option String :=
  match c t.tile_data with
  | .ok b => some (dF b)
  | .error _ => none

/-- The digests produced by the tiles that transcode successfully, in
source order (with multiplicity). -/
def successDigests (dF : Bytes → String) (c : Codec) (tiles : List Tile) : List String :=
  tiles.filterMap (digestFor dF c)

/-- The destination map row a tile produces, if it transcodes. -/
def rowFor (dF : Bytes → String) (c : Codec) (t : Tile) : Option MapRow :=
  match c t.tile_data with
  | .ok b => some ⟨t.zoom_level, t.tile_column, t.tile_row, dF b, none⟩
  | .error _ => none

/-- Whether the codec fails on a tile. -/
def tileFails (c : Codec) (t : Tile) : Bool :=
  match c t.tile_data with
  | .ok _ => false
  | .error _ => true

/-- The warning a failed tile produces, if any. -/
def warnFor (c : Codec) (t : Tile) : Option (Int × Int × Int × String) :=
  match c t.tile_data with
  | .ok _ => none
  | .error m => some (t.zoom_level, t.tile_column, t.tile_row, m)

/-- The end-of-run summary warning (lines 137-142): printed with the failed
count exactly when `failed > 0`. -/
def summaryWarning (s : RunState) : Option Nat :=
  if s.failed > 0 then some s.failed else none

/-- Scanner for referential integrity of a write trace: every
`insertMap` must carry a digest for which an `insertImage` was already
issued earlier in the trace. -/
def integrityGo : List String → List Op → Bool
  | _, [] => true
  | seen, Op.insertImage id :: rest => integrityGo (id :: seen) rest
  | seen, Op.insertMap _ _ _ id :: rest => seen.contains id && integrityGo seen rest
  | seen, _ :: rest => integrityGo seen rest

/-- A trace is integrity-safe when every reference write is preceded by
the matching image write. -/
def checkIntegrityTrace (ops : List Op) : Bool :=
  integrityGo [] ops

/-- Whether an operation is one of the two per-tile destination writes. -/
def isInsertOp : Op → Bool
  | Op.insertImage _ => true
  | Op.insertMap _ _ _ _ => true
  | _ => false

/-- Whether an operation drops an index. -/
def isDropIndexOp : Op → Bool
  | Op.dropIndex _ => true
  | _ => false

/-- Whether an operation creates an index (executes an `index`-typed
schema object). -/
def isIndexCreateOp : Op → Bool
  | Op.execSchema t _ => t == "index"
  | _ => false

/-- Phase number of an operation in the pipeline's program order; the
run's trace is nondecreasing in this measure. -/
def opPhase : Op → Nat
  | Op.pragmaWal => 0
  | Op.execSchema t _ => if t == "table" then 1 else 5
  | Op.attachSource => 2
  | Op.copyTable _ => 3
  | Op.detachSource => 4
  | Op.countMap => 6
  | Op.insertImage _ => 7
  | Op.insertMap _ _ _ _ => 7
  | Op.dropIndex _ => 11
  | Op.pragmaOptimize => 8
  | Op.analyze => 9
  | Op.vacuum => 10

/-- `monoFrom p l` checks that `l` is nondecreasing and bounded below by
`p`. -/
def monoFrom : Nat → List Nat → Bool
  | _, [] => true
  | p, x :: rest => decide (p ≤ x) && monoFrom x rest

/-- Scanner refuting the spec's replication order: returns `false` exactly
when some non-table schema object is executed after a table copy has
already happened (first argument: a copy has been seen). -/
def ntbcGo : Bool → List Op → Bool
  | _, [] => true
  | _, Op.copyTable _ :: rest => ntbcGo true rest
  | seenCopy, Op.execSchema t _ :: rest =>
      if t != "table" && seenCopy then false else ntbcGo seenCopy rest
  | seenCopy, _ :: rest => ntbcGo seenCopy rest

/-- The ordering the spec asserts for schema replication: all non-table
structural objects are reproduced before any table contents are copied. -/
def nonTableObjectsBeforeCopies (ops : List Op) : Bool :=
  ntbcGo false ops

/-- State of the concurrency limiter: tiles not yet admitted and tasks in
flight. -/
structure LimState where
  pending : Nat
  active : Nat
deriving DecidableEq

/-- Steps of the admission loop (src/unnamed/part_000 lines 101-132): a
tile is admitted only when fewer than `N` promises are active — when the
set is full the coordinator awaits `Promise.race(activePromises)`, and a
promise removes itself from the set as part of settling, so admission
happens strictly below the bound; any in-flight task may complete
(success or failure) at any time. -/
inductive LimStep (N : Nat) : LimState → LimState → Prop where
  | start (p a : Nat) (h : a < N) : LimStep N ⟨p + 1, a⟩ ⟨p, a + 1⟩
  | complete (p a : Nat) : LimStep N ⟨p, a + 1⟩ ⟨p, a⟩

/-- Reachability from the initial state (`p` pending tiles, no task in
flight) through admission/completion steps. -/
def LimReachable (N p : Nat) (s : LimState) : Prop :=
  Relation.ReflTransGen (LimStep N) ⟨p, 0⟩ s

/-- Parsed command-line options of `src/cli.js`; `none` models the `NaN`
result of `parseInt` on non-numeric input. -/
structure Options where
  quality : Option Int
  alphaQuality : Option Int
  method : Option Int
  concurrency : Option Int
  force : Bool
  skipCount : Bool
deriving DecidableEq

/-- The filesystem as consulted by `src/cli.js`: `existsSync` and
`statSync(...).isFile()`. -/
structure Fs where
  existsSync : String → Bool
  isFile : String → Bool

/-- Filesystem/archive mutations `src/cli.js` can perform before and at
the start of a run. -/
inductive FsEffect where
  | mkdirRecursive (dir : String)
  | unlink (path : String)
  | openArchives (source destination : String)
deriving DecidableEq

/-- `!isNaN(v) && lo <= v && v <= hi`, the shape of the range checks. -/
def intInRange (v : Option Int) (lo hi : Int) : Bool :=
  match v with
  | none => false
  | some n => decide (lo ≤ n) && decide (n ≤ hi)

/-- The program action of `src/cli.js` lines 31-78 up to the point where
`run` opens the archives: the validation chain in source order, then
destination-directory creation, the collision check, and the optional
unlink.  Returns the filesystem effects performed (in order) and either
the thrown error or success. -/
def cliAction (dirname : String → String) (fs : Fs) (source destination : String)
    (o : Options) : List FsEffect × Except String Unit :=
  if !intInRange o.quality 0 100 then
    ([], .error "Quality must be a number between 0 and 100")
  else if !intInRange o.alphaQuality 0 100 then
    ([], .error "Alpha quality must be a number between 0 and 100")
  else if !intInRange o.method 0 6 then
    ([], .error "Method must be a number between 0 and 6")
  else if !intInRange o.concurrency 1 100 then
    ([], .error "Concurrency must be a number between 1 and 100")
  else if !fs.existsSync source then
    ([], .error "Source file does not exist")
  else if !fs.isFile source then
    ([], .error "Source path is not a file")
  else
    let destDir := dirname destination
    let mkdirEffs : List FsEffect :=
      if fs.existsSync destDir then [] else [.mkdirRecursive destDir]
    if fs.existsSync destination then
      if o.force then
        (mkdirEffs ++ [.unlink destination, .openArchives source destination], .ok ())
      else
        (mkdirEffs, .error "Destination already exists")
    else
      (mkdirEffs ++ [.openArchives source destination], .ok ())

/-- The configuration-error conditions of claim C8, exactly as checked by
`src/cli.js`: out-of-range or non-numeric quality, alpha quality, method
or concurrency, missing or non-file source, or destination collision
without `--force`. -/
def invalidConfig (fs : Fs) (source destination : String) (o : Options) : Bool :=
  !intInRange o.quality 0 100 || !intInRange o.alphaQuality 0 100
    || !intInRange o.method 0 6 || !intInRange o.concurrency 1 100
    || !fs.existsSync source || !fs.isFile source
    || (fs.existsSync destination && !o.force)

/-- Concrete digest function for witnesses: a constant digest (any
function of the bytes is admissible at this interface). -/
def dF0 : Bytes → String := fun _ => "d"

/-- Concrete codec for witnesses: always succeeds, returns its input. -/
def c0 : Codec := fun b => Except.ok b

/-- Concrete codec that fails on every tile. -/
def cFail : Codec := fun _ => Except.error "boom"

/-- Concrete codec that fails exactly on tile data `[0]`. -/
def cMix : Codec := fun b => if b == [0] then Except.error "boom" else Except.ok b

/-- A successful tile. -/
def t1 : Tile := ⟨0, 0, 0, [1]⟩

/-- A tile on which `cMix` and `cFail` fail. -/
def tf : Tile := ⟨1, 2, 3, [0]⟩

/-- One-tile source archive with an empty schema listing. -/
def src2 : SourceDb := ⟨[], 1, [t1]⟩

/-- Source archive whose schema holds three tables and one index — the
shape of a standard deduplicated MBTiles catalog. -/
def src3 : SourceDb :=
  ⟨[⟨"metadata", "table", some "CREATE TABLE metadata (name text, value text)"⟩,
    ⟨"images", "table", some "CREATE TABLE images (tile_data blob, tile_id text)"⟩,
    ⟨"map", "table", some "CREATE TABLE map (zoom_level integer, tile_column integer, tile_row integer, tile_id text, grid_id text)"⟩,
    ⟨"map_idx", "index", some "CREATE UNIQUE INDEX map_idx ON map (zoom_level, tile_column, tile_row)"⟩],
   0, []⟩

/-- Source archive with one table and one tile and no index objects. -/
def src4 : SourceDb :=
  ⟨[⟨"metadata", "table", some "CREATE TABLE metadata (name text, value text)"⟩], 1, [t1]⟩

/-- Two-tile source: the first tile fails under `cMix`, the second
succeeds. -/
def src5 : SourceDb := ⟨[], 2, [tf, t1]⟩

/-- Concrete `dirname` for witnesses. -/
def dirname0 : String → String := fun _ => "out"

/-- Concrete filesystem for witnesses: everything exists and is a file. -/
def fs0 : Fs := ⟨fun _ => true, fun _ => true⟩

/-- Options with `quality = 150` (the spec's rejected configuration). -/
def o150 : Options := ⟨some 150, some 100, some 4, some 20, false, false⟩

lemma transcodeFold_cons (dF : Bytes → String) (c : Codec) (t : Tile) (ts : List Tile)
    (s : RunState) :
    transcodeFold dF c (t :: ts) s = transcodeFold dF c ts (stepTile dF c s t) := rfl

lemma transcodeFold_map (dF : Bytes → String) (c : Codec) (tiles : List Tile) :
    ∀ s : RunState,
      (transcodeFold dF c tiles s).map = s.map ++ tiles.filterMap (rowFor dF c) := by
  induction tiles with
  | nil => intro s; simp [transcodeFold]
  | cons t ts ih =>
    intro s
    rw [transcodeFold_cons, ih]
    cases hct : c t.tile_data with
    | ok b => simp [stepTile, hct, rowFor, List.filterMap_cons]
    | error m => simp [stepTile, hct, rowFor, List.filterMap_cons]

lemma transcodeFold_failed (dF : Bytes → String) (c : Codec) (tiles : List Tile) :
    ∀ s : RunState,
      (transcodeFold dF c tiles s).failed = s.failed + (tiles.filter (tileFails c)).length := by
  induction tiles with
  | nil => intro s; simp [transcodeFold]
  | cons t ts ih =>
    intro s
    rw [transcodeFold_cons, ih]
    cases hct : c t.tile_data with
    | ok b => simp [stepTile, hct, tileFails, List.filter_cons]
    | error m => simp [stepTile, hct, tileFails, List.filter_cons]; omega

lemma transcodeFold_processed (dF : Bytes → String) (c : Codec) (tiles : List Tile) :
    ∀ s : RunState,
      (transcodeFold dF c tiles s).processed = s.processed + tiles.length := by
  induction tiles with
  | nil => intro s; simp [transcodeFold]
  | cons t ts ih =>
    intro s
    rw [transcodeFold_cons, ih]
    cases hct : c t.tile_data with
    | ok b => simp [stepTile, hct]; omega
    | error m => simp [stepTile, hct]; omega

lemma transcodeFold_warnings (dF : Bytes → String) (c : Codec) (tiles : List Tile) :
    ∀ s : RunState,
      (transcodeFold dF c tiles s).warnings = s.warnings ++ tiles.filterMap (warnFor c) := by
  induction tiles with
  | nil => intro s; simp [transcodeFold]
  | cons t ts ih =>
    intro s
    rw [transcodeFold_cons, ih]
    cases hct : c t.tile_data with
    | ok b => simp [stepTile, hct, warnFor, List.filterMap_cons]
    | error m => simp [stepTile, hct, warnFor, List.filterMap_cons]

lemma mem_keys_insertImageIfAbsent (imgs : List (String × Bytes)) (id : String) (b : Bytes)
    (d : String) :
    d ∈ (insertImageIfAbsent imgs id b).map Prod.fst ↔ d ∈ imgs.map Prod.fst ∨ d = id := by
  unfold insertImageIfAbsent
  by_cases h : imgs.any (fun p => p.1 == id) = true
  · have hid : id ∈ imgs.map Prod.fst := by
      rcases List.any_eq_true.mp h with ⟨p, hp, hpe⟩
      exact List.mem_map.mpr ⟨p, hp, beq_iff_eq.mp hpe⟩
    simp only [if_pos h]
    constructor
    · exact Or.inl
    · rintro (hd | rfl)
      · exact hd
      · exact hid
  · simp [if_neg h, List.map_append]

lemma nodup_keys_insertImageIfAbsent (imgs : List (String × Bytes)) (id : String) (b : Bytes)
    (h : (imgs.map Prod.fst).Nodup) :
    ((insertImageIfAbsent imgs id b).map Prod.fst).Nodup := by
  unfold insertImageIfAbsent
  by_cases hc : imgs.any (fun p => p.1 == id) = true
  · simpa [if_pos hc] using h
  · simp only [if_neg hc, List.map_append, List.nodup_append]
    refine ⟨h, by simp, ?_⟩
    intro x hx hx1
    simp only [List.map_cons, List.map_nil, List.mem_singleton] at hx1
    subst hx1
    rcases List.mem_map.mp hx with ⟨p, hp, hpe⟩
    exact hc (List.any_eq_true.mpr ⟨p, hp, beq_iff_eq.mpr hpe⟩)

lemma exists_pair_insertImageIfAbsent (imgs : List (String × Bytes)) (id : String) (b : Bytes) :
    ∃ b2, (id, b2) ∈ insertImageIfAbsent imgs id b := by
  unfold insertImageIfAbsent
  by_cases hc : imgs.any (fun p => p.1 == id) = true
  · rcases List.any_eq_true.mp hc with ⟨p, hp, hpe⟩
    obtain ⟨p1, p2⟩ := p
    have hp1 : p1 = id := beq_iff_eq.mp hpe
    subst hp1
    exact ⟨p2, by simp [if_pos hc, hp]⟩
  · exact ⟨b, by simp [if_neg hc]⟩

lemma mem_insertImageIfAbsent_of_mem (imgs : List (String × Bytes)) (id : String) (b : Bytes)
    (x : String × Bytes) (h : x ∈ imgs) : x ∈ insertImageIfAbsent imgs id b := by
  unfold insertImageIfAbsent
  by_cases hc : imgs.any (fun p => p.1 == id) = true
  · simpa [if_pos hc] using h
  · simp [if_neg hc, h]

lemma mem_keys_transcodeFold (dF : Bytes → String) (c : Codec) (tiles : List Tile) :
    ∀ (s : RunState) (d : String),
      d ∈ (transcodeFold dF c tiles s).images.map Prod.fst
        ↔ d ∈ s.images.map Prod.fst ∨ d ∈ successDigests dF c tiles := by
  induction tiles with
  | nil => intro s d; simp [transcodeFold, successDigests]
  | cons t ts ih =>
    intro s d
    rw [transcodeFold_cons, ih]
    cases hct : c t.tile_data with
    | ok b =>
      simp only [stepTile, hct, successDigests, digestFor, List.filterMap_cons,
        mem_keys_insertImageIfAbsent, List.mem_cons]
      tauto
    | error m =>
      simp [stepTile, hct, successDigests, digestFor, List.filterMap_cons]

lemma nodup_keys_transcodeFold (dF : Bytes → String) (c : Codec) (tiles : List Tile) :
    ∀ s : RunState, (s.images.map Prod.fst).Nodup →
      ((transcodeFold dF c tiles s).images.map Prod.fst).Nodup := by
  induction tiles with
  | nil => intro s h; simpa [transcodeFold] using h
  | cons t ts ih =>
    intro s h
    rw [transcodeFold_cons]
    apply ih
    cases hct : c t.tile_data with
    | ok b => simpa [stepTile, hct] using nodup_keys_insertImageIfAbsent s.images (dF b) b h
    | error m => simpa [stepTile, hct] using h

lemma integrity_transcodeFold (dF : Bytes → String) (c : Codec) (tiles : List Tile) :
    ∀ s : RunState, (∀ r ∈ s.map, ∃ b, (r.tile_id, b) ∈ s.images) →
      ∀ r ∈ (transcodeFold dF c tiles s).map,
        ∃ b, (r.tile_id, b) ∈ (transcodeFold dF c tiles s).images := by
  induction tiles with
  | nil => intro s h; simpa [transcodeFold] using h
  | cons t ts ih =>
    intro s h
    rw [transcodeFold_cons]
    apply ih
    intro r hr
    cases hct : c t.tile_data with
    | ok b =>
      simp only [stepTile, hct, List.mem_append, List.mem_singleton] at hr
      rcases hr with hr | rfl
      · rcases h r hr with ⟨b2, hb2⟩
        exact ⟨b2, by
          simpa [stepTile, hct] using
            mem_insertImageIfAbsent_of_mem s.images (dF b) b (r.tile_id, b2) hb2⟩
      · simpa [stepTile, hct] using exists_pair_insertImageIfAbsent s.images (dF b) b
    | error m =>
      simp only [stepTile, hct] at hr ⊢
      exact h r hr

lemma tableCreateOps_mem {objects : List SchemaObject} {o : Op}
    (h : o ∈ tableCreateOps objects) :
    ∃ x, x ∈ objects ∧ (x.type_ == "table" && x.sql.isSome) = true
      ∧ o = Op.execSchema x.type_ x.name := by
  rcases List.mem_filterMap.mp h with ⟨x, hx, hfx⟩
  by_cases hc : (x.type_ == "table" && x.sql.isSome) = true
  · rw [if_pos hc] at hfx
    exact ⟨x, hx, hc, (Option.some.injEq _ _ ▸ hfx).symm⟩
  · rw [if_neg hc] at hfx
    cases hfx

lemma copyTableOps_mem {objects : List SchemaObject} {o : Op}
    (h : o ∈ copyTableOps objects) :
    ∃ x, x ∈ objects ∧ (x.type_ == "table" && x.name != "images" && x.name != "map") = true
      ∧ o = Op.copyTable x.name := by
  rcases List.mem_filterMap.mp h with ⟨x, hx, hfx⟩
  by_cases hc : (x.type_ == "table" && x.name != "images" && x.name != "map") = true
  · rw [if_pos hc] at hfx
    exact ⟨x, hx, hc, (Option.some.injEq _ _ ▸ hfx).symm⟩
  · rw [if_neg hc] at hfx
    cases hfx

lemma nonTableOps_mem {objects : List SchemaObject} {o : Op}
    (h : o ∈ nonTableOps objects) :
    ∃ x, x ∈ objects ∧ (x.type_ != "table" && x.sql.isSome) = true
      ∧ o = Op.execSchema x.type_ x.name := by
  rcases List.mem_filterMap.mp h with ⟨x, hx, hfx⟩
  by_cases hc : (x.type_ != "table" && x.sql.isSome) = true
  · rw [if_pos hc] at hfx
    exact ⟨x, hx, hc, (Option.some.injEq _ _ ▸ hfx).symm⟩
  · rw [if_neg hc] at hfx
    cases hfx

lemma transcodeOps_mem_insert {dF : Bytes → String} {c : Codec} {tiles : List Tile} {o : Op}
    (h : o ∈ transcodeOps dF c tiles) : isInsertOp o = true := by
  rcases List.mem_flatMap.mp h with ⟨t, ht, ho⟩
  cases hct : c t.tile_data with
  | ok b =>
    simp only [opsForTile, hct, List.mem_cons, List.not_mem_nil, or_false] at ho
    rcases ho with rfl | rfl <;> rfl
  | error m => simp [opsForTile, hct] at ho

lemma schemaOps_no_insert (objects : List SchemaObject) :
    ∀ o ∈ schemaOps objects, isInsertOp o = false := by
  intro o ho
  simp only [schemaOps, List.mem_append, List.mem_singleton] at ho
  rcases ho with ((((h | rfl) | h) | rfl) | h)
  · rcases tableCreateOps_mem h with ⟨x, -, -, rfl⟩; rfl
  · rfl
  · rcases copyTableOps_mem h with ⟨x, -, -, rfl⟩; rfl
  · rfl
  · rcases nonTableOps_mem h with ⟨x, -, -, rfl⟩; rfl

lemma integrityGo_skip :
    ∀ l : List Op, (∀ o ∈ l, isInsertOp o = false) →
      ∀ (seen : List String) (rest : List Op),
        integrityGo seen (l ++ rest) = integrityGo seen rest := by
  intro l
  induction l with
  | nil => intro _ seen rest; rfl
  | cons o l ih =>
    intro h seen rest
    have ho := h o (by simp)
    have hl : ∀ o' ∈ l, isInsertOp o' = false := fun o' h' => h o' (by simp [h'])
    cases o with
    | insertImage id => simp [isInsertOp] at ho
    | insertMap z x y id => simp [isInsertOp] at ho
    | pragmaWal => exact ih hl seen rest
    | execSchema t n => exact ih hl seen rest
    | attachSource => exact ih hl seen rest
    | copyTable n => exact ih hl seen rest
    | detachSource => exact ih hl seen rest
    | countMap => exact ih hl seen rest
    | dropIndex n => exact ih hl seen rest
    | pragmaOptimize => exact ih hl seen rest
    | analyze => exact ih hl seen rest
    | vacuum => exact ih hl seen rest

lemma integrityGo_transcode (dF : Bytes → String) (c : Codec) :
    ∀ (tiles : List Tile) (seen : List String) (rest : List Op),
      integrityGo seen (transcodeOps dF c tiles ++ rest)
        = integrityGo ((successDigests dF c tiles).reverse ++ seen) rest := by
  intro tiles
  induction tiles with
  | nil => intro seen rest; simp [transcodeOps, successDigests]
  | cons t ts ih =>
    intro seen rest
    have h1 : transcodeOps dF c (t :: ts) = opsForTile dF c t ++ transcodeOps dF c ts := by
      simp [transcodeOps]
    rw [h1, List.append_assoc]
    cases hct : c t.tile_data with
    | ok b =>
      simp only [opsForTile, hct, List.cons_append, List.nil_append]
      have h2 : integrityGo seen
          (Op.insertImage (dF b) :: Op.insertMap t.zoom_level t.tile_column t.tile_row (dF b)
            :: (transcodeOps dF c ts ++ rest))
          = ((dF b :: seen).contains (dF b) && integrityGo (dF b :: seen)
              (transcodeOps dF c ts ++ rest)) := rfl
      rw [h2]
      have h3 : (dF b :: seen).contains (dF b) = true := by simp
      rw [h3, Bool.true_and, ih]
      simp [successDigests, digestFor, hct, List.filterMap_cons, List.append_assoc]
    | error m =>
      simp only [opsForTile, hct, List.nil_append]
      rw [ih]
      simp [successDigests, digestFor, hct, List.filterMap_cons]

lemma tableCreateOps_phase (objects : List SchemaObject) :
    ∀ a ∈ (tableCreateOps objects).map opPhase, a = 1 := by
  intro a ha
  rcases List.mem_map.mp ha with ⟨o, ho, rfl⟩
  rcases tableCreateOps_mem ho with ⟨x, -, hc, rfl⟩
  rw [Bool.and_eq_true] at hc
  simp [opPhase, hc.1]

lemma copyTableOps_phase (objects : List SchemaObject) :
    ∀ a ∈ (copyTableOps objects).map opPhase, a = 3 := by
  intro a ha
  rcases List.mem_map.mp ha with ⟨o, ho, rfl⟩
  rcases copyTableOps_mem ho with ⟨x, -, -, rfl⟩
  rfl

lemma nonTableOps_phase (objects : List SchemaObject) :
    ∀ a ∈ (nonTableOps objects).map opPhase, a = 5 := by
  intro a ha
  rcases List.mem_map.mp ha with ⟨o, ho, rfl⟩
  rcases nonTableOps_mem ho with ⟨x, -, hc, rfl⟩
  rw [Bool.and_eq_true] at hc
  have h1 := hc.1
  have h2 : (x.type_ == "table") = false := by
    cases h : x.type_ == "table"
    · rfl
    · rw [bne, h] at h1; cases h1
  simp [opPhase, h2]

lemma transcodeOps_phase (dF : Bytes → String) (c : Codec) (tiles : List Tile) :
    ∀ a ∈ (transcodeOps dF c tiles).map opPhase, a = 7 := by
  intro a ha
  rcases List.mem_map.mp ha with ⟨o, ho, rfl⟩
  have h := transcodeOps_mem_insert ho
  cases o <;> simp [isInsertOp] at h <;> rfl

lemma monoFrom_le (p q : Nat) (l : List Nat) (hpq : p ≤ q) (h : monoFrom q l = true) :
    monoFrom p l = true := by
  cases l with
  | nil => rfl
  | cons x rest =>
    simp only [monoFrom, Bool.and_eq_true, decide_eq_true_eq] at h ⊢
    exact ⟨le_trans hpq h.1, h.2⟩

lemma monoFrom_const_append (l rest : List Nat) (k : Nat) :
    ∀ p : Nat, (∀ a ∈ l, a = k) → p ≤ k → monoFrom k rest = true →
      monoFrom p (l ++ rest) = true := by
  induction l with
  | nil => intro p _ hp hrest; exact monoFrom_le p k rest hp hrest
  | cons x l ih =>
    intro p hl hp hrest
    have hx : x = k := hl x (by simp)
    subst hx
    simp only [List.cons_append, monoFrom, Bool.and_eq_true, decide_eq_true_eq]
    exact ⟨hp, ih x (fun a ha => hl a (by simp [ha])) le_rfl hrest⟩

lemma isDropIndexOp_of_insert {o : Op} (h : isInsertOp o = true) : isDropIndexOp o = false := by
  cases o <;> simp [isInsertOp, isDropIndexOp] at h ⊢

lemma schemaOps_no_drop (objects : List SchemaObject) :
    ∀ o ∈ schemaOps objects, isDropIndexOp o = false := by
  intro o ho
  simp only [schemaOps, List.mem_append, List.mem_singleton] at ho
  rcases ho with ((((h | rfl) | h) | rfl) | h)
  · rcases tableCreateOps_mem h with ⟨x, -, -, rfl⟩; rfl
  · rfl
  · rcases copyTableOps_mem h with ⟨x, -, -, rfl⟩; rfl
  · rfl
  · rcases nonTableOps_mem h with ⟨x, -, -, rfl⟩; rfl

lemma run_ops_no_drop (dF : Bytes → String) (c : Codec) (src : SourceDb) :
    ∀ o ∈ (run dF c src).ops, isDropIndexOp o = false := by
  intro o ho
  simp only [run, List.mem_cons, List.mem_append] at ho
  rcases ho with rfl | (((hA | hB) | hC) | hD)
  · rfl
  · exact schemaOps_no_drop src.schema o hA
  · rcases hB with rfl | hB
    · rfl
    · cases hB
  · exact isDropIndexOp_of_insert (transcodeOps_mem_insert hC)
  · rcases hD with rfl | rfl | rfl | hD
    · rfl
    · rfl
    · rfl
    · cases hD

lemma run_state_map (dF : Bytes → String) (c : Codec) (src : SourceDb) :
    (run dF c src).state.map = src.tiles.filterMap (rowFor dF c) := by
  show (transcodeFold dF c src.tiles initState).map = _
  rw [transcodeFold_map]
  simp [initState]

lemma run_state_failed (dF : Bytes → String) (c : Codec) (src : SourceDb) :
    (run dF c src).state.failed = (src.tiles.filter (tileFails c)).length := by
  show (transcodeFold dF c src.tiles initState).failed = _
  rw [transcodeFold_failed]
  simp [initState]

lemma run_state_processed (dF : Bytes → String) (c : Codec) (src : SourceDb) :
    (run dF c src).state.processed = src.tiles.length := by
  show (transcodeFold dF c src.tiles initState).processed = _
  rw [transcodeFold_processed]
  simp [initState]

lemma run_state_warnings (dF : Bytes → String) (c : Codec) (src : SourceDb) :
    (run dF c src).state.warnings = src.tiles.filterMap (warnFor c) := by
  show (transcodeFold dF c src.tiles initState).warnings = _
  rw [transcodeFold_warnings]
  simp [initState]

lemma filterMap_rowFor_length (dF : Bytes → String) (c : Codec) (l : List Tile) :
    (l.filterMap (rowFor dF c)).length + (l.filter (tileFails c)).length = l.length := by
  induction l with
  | nil => rfl
  | cons t ts ih =>
    cases hct : c t.tile_data with
    | ok b =>
      simp only [List.filterMap_cons, List.filter_cons, rowFor, tileFails, hct,
        List.length_cons]
      simp only [Bool.false_eq_true, if_false]
      omega
    | error m =>
      simp only [List.filterMap_cons, List.filter_cons, rowFor, tileFails, hct,
        List.length_cons, if_true]
      omega

/-- Claim C1: for every reference row present in the destination archive
after the run completes, an image row with that row's digest exists; and
in the write trace, each item's image insert is issued before (the
`Promise.all` array evaluates `insertTile.run` first) the insert of that
item's reference row, so no reference ever points at a digest whose
image write has not already been issued. -/
theorem c1_referential_integrity (dF : Bytes → String) (c : Codec) (src : SourceDb) :
    (∀ r ∈ (run dF c src).state.map, ∃ b, (r.tile_id, b) ∈ (run dF c src).state.images)
    ∧ checkIntegrityTrace (run dF c src).ops = true := by
  constructor
  · intro r hr
    have h0 : ∀ r2 ∈ initState.map, ∃ b, (r2.tile_id, b) ∈ initState.images := by
      intro r2 hr2
      simp [initState] at hr2
    exact integrity_transcodeFold dF c src.tiles initState h0 r hr
  · show integrityGo []
      (Op.pragmaWal :: (schemaOps src.schema ++ [Op.countMap] ++ transcodeOps dF c src.tiles
        ++ [Op.pragmaOptimize, Op.analyze, Op.vacuum])) = true
    rw [List.append_assoc, List.append_assoc]
    show integrityGo []
      (schemaOps src.schema ++ ([Op.countMap] ++ (transcodeOps dF c src.tiles
        ++ [Op.pragmaOptimize, Op.analyze, Op.vacuum]))) = true
    rw [integrityGo_skip (schemaOps src.schema) (schemaOps_no_insert src.schema)]
    rw [integrityGo_skip [Op.countMap] (by intro o ho; simp at ho; subst ho; rfl)]
    rw [integrityGo_transcode]
    rfl

/-- Claim C2: after any run the destination image table has exactly one
row per distinct digest produced by the successfully transcoding tiles —
its key column is duplicate-free and its keys are exactly the produced
digests — and re-inserting an already-present digest is a no-op. -/
theorem c2_dedup_idempotent (dF : Bytes → String) (c : Codec) (src : SourceDb) :
    ((run dF c src).state.images.map Prod.fst).Nodup
    ∧ (∀ d, d ∈ (run dF c src).state.images.map Prod.fst
        ↔ d ∈ successDigests dF c src.tiles)
    ∧ (∀ imgs id b b2,
        insertImageIfAbsent (insertImageIfAbsent imgs id b) id b2
          = insertImageIfAbsent imgs id b) := by
  refine ⟨?_, ?_, ?_⟩
  · apply nodup_keys_transcodeFold
    simp [initState]
  · intro d
    show d ∈ (transcodeFold dF c src.tiles initState).images.map Prod.fst ↔ _
    rw [mem_keys_transcodeFold]
    simp [initState]
  · intro imgs id b b2
    by_cases h : imgs.any (fun p => p.1 == id) = true
    · simp [insertImageIfAbsent, h]
    · have h2 : (imgs ++ [(id, b)]).any (fun p => p.1 == id) = true := by
        simp [List.any_append]
      simp [insertImageIfAbsent, h, h2]

/-- Claim C3, counterexample: on a one-tile archive whose tile fails to
transcode, the destination map table ends up empty while the source
reference table has one row — the pipeline does drop the rows of failed
items, so the claimed count equality is false. -/
theorem c3_counterexample :
    ¬ ((run dF0 cFail src2).state.map.length = src2.tiles.length) := by decide

/-- Claim C3 as amended: the destination reference table contains exactly
one row per source tile that transcodes successfully — destination row
count plus failed count equals the source reference-row count, and no row
is duplicated; the counts are equal exactly when no item fails. -/
theorem c3_row_preservation (dF : Bytes → String) (c : Codec) (src : SourceDb)
    (h : src.mapCount = src.tiles.length) :
    (run dF c src).state.map = src.tiles.filterMap (rowFor dF c)
    ∧ (run dF c src).state.map.length + (run dF c src).state.failed = src.mapCount := by
  refine ⟨run_state_map dF c src, ?_⟩
  rw [run_state_map, run_state_failed, h]
  exact filterMap_rowFor_length dF c src.tiles

/-- Claim C3 amended, witness at a concrete archive where every tile
transcodes: counts agree. -/
theorem c3_row_preservation_witness :
    (run dF0 c0 src2).state.map = src2.tiles.filterMap (rowFor dF0 c0)
    ∧ (run dF0 c0 src2).state.map.length + (run dF0 c0 src2).state.failed
        = src2.mapCount :=
  c3_row_preservation dF0 c0 src2 (by decide)

/-- Claim C9: the pipeline's `run` always executes the upfront
`SELECT COUNT(*) FROM map` — `run` in part_000 declares no `skipCount`
parameter, so the flag `src/cli.js` passes is dropped and the count query
runs even when `--skip-count` is set (first conjunct: the concrete
failing input with the flag set). -/
theorem c9_count_query_always_runs :
    Op.countMap ∈ (cliRun true dF0 c0 src2).ops
    ∧ ∀ (sc : Bool) (dF : Bytes → String) (c : Codec) (src : SourceDb),
        Op.countMap ∈ (cliRun sc dF c src).ops := by
  have h : ∀ (sc : Bool) (dF : Bytes → String) (c : Codec) (src : SourceDb),
      Op.countMap ∈ (cliRun sc dF c src).ops := by
    intro sc dF c src
    simp [cliRun, run, List.mem_append]
  exact ⟨h true dF0 c0 src2, h⟩

/-- Claim C10: every reference row written to the destination map table
has `grid_id` null — the prepared insert writes the literal `null` and
never reads a grid value from the source. -/
theorem c10_grid_id_null (dF : Bytes → String) (c : Codec) (src : SourceDb) :
    ((run dF c src).state.map.all fun r => r.grid_id.isNone) = true := by
  rw [List.all_eq_true]
  intro r hr
  rw [run_state_map] at hr
  rcases List.mem_filterMap.mp hr with ⟨t, ht, hft⟩
  unfold rowFor at hft
  cases hct : c t.tile_data with
  | ok b =>
    rw [hct] at hft
    cases hft
    rfl
  | error m =>
    rw [hct] at hft
    cases hft

/-- Claim C10, witness at a concrete run. -/
theorem c10_grid_id_null_witness :
    ((run dF0 c0 src2).state.map.all fun r => r.grid_id.isNone) = true :=
  c10_grid_id_null dF0 c0 src2

/-- Claim C4, counterexample: on a concrete archive (one table, one tile)
the run's full operation trace contains no index-creation operation and
no index-drop operation at all, so no helper index is created before the
transcoding stage nor dropped afterwards. -/
theorem c4_counterexample :
    ¬ (((run dF0 c0 src4).ops.any isIndexCreateOp) = true
        ∧ ((run dF0 c0 src4).ops.any isDropIndexOp) = true) := by decide

/-- Claim C4 as amended: the pipeline never drops any index; the
finalization stage is exactly `PRAGMA optimize`, `ANALYZE`, `VACUUM` at
the end of the trace; and every schema-object execution (including any
index creation) merely replicates an object of the source schema during
schema replication — there is no separately managed helper index. -/
theorem c4_no_helper_index (dF : Bytes → String) (c : Codec) (src : SourceDb) :
    ((run dF c src).ops.all fun o => !isDropIndexOp o) = true
    ∧ (∃ l, (run dF c src).ops = l ++ [Op.pragmaOptimize, Op.analyze, Op.vacuum])
    ∧ (∀ t n, Op.execSchema t n ∈ (run dF c src).ops
        → ∃ x, x ∈ src.schema ∧ x.type_ = t ∧ x.name = n) := by
  refine ⟨?_, ?_, ?_⟩
  · rw [List.all_eq_true]
    intro o ho
    rw [run_ops_no_drop dF c src o ho]
    rfl
  · exact ⟨Op.pragmaWal :: (schemaOps src.schema ++ [Op.countMap]
      ++ transcodeOps dF c src.tiles), by simp [run]⟩
  · intro t n hmem
    simp only [run, List.mem_cons, List.mem_append] at hmem
    rcases hmem with h | (((hA | hB) | hC) | hD)
    · cases h
    · simp only [schemaOps, List.mem_append, List.mem_singleton] at hA
      rcases hA with ((((h | h) | h) | h) | h)
      · rcases tableCreateOps_mem h with ⟨x, hx, -, heq⟩
        injection heq with ht hn
        exact ⟨x, hx, ht.symm, hn.symm⟩
      · cases h
      · rcases copyTableOps_mem h with ⟨x, -, -, heq⟩
        cases heq
      · cases h
      · rcases nonTableOps_mem h with ⟨x, hx, -, heq⟩
        injection heq with ht hn
        exact ⟨x, hx, ht.symm, hn.symm⟩
    · rcases hB with h | h
      · cases h
      · cases h
    · have hi := transcodeOps_mem_insert hC
      simp [isInsertOp] at hi
    · rcases hD with h | h | h | h
      · cases h
      · cases h
      · cases h
      · cases h

/-- Claim C4 amended, witness: on the concrete archive `src3` the index
execution in the trace is the replication of the source's `map_idx`
schema object. -/
theorem c4_no_helper_index_witness :
    ((run dF0 c0 src3).ops.all fun o => !isDropIndexOp o) = true
    ∧ (∃ l, (run dF0 c0 src3).ops = l ++ [Op.pragmaOptimize, Op.analyze, Op.vacuum])
    ∧ (∃ x, x ∈ src3.schema ∧ x.type_ = "index" ∧ x.name = "map_idx") :=
  ⟨(c4_no_helper_index dF0 c0 src3).1, (c4_no_helper_index dF0 c0 src3).2.1,
    (c4_no_helper_index dF0 c0 src3).2.2 "index" "map_idx" (by decide)⟩

/-- Claim C5, counterexample: on a concrete archive holding three tables
and one index, the run executes the index's schema object after the copy
of the `metadata` table, so non-table structural objects are not
reproduced before table contents are copied. -/
theorem c5_counterexample :
    nonTableObjectsBeforeCopies (run dF0 c0 src3).ops = false := by decide

/-- Claim C5 as amended: schema replication reproduces table definitions
first, then copies the contents of every non-`images`/`map` table, and
only then reproduces non-table structural objects (indexes, views); the
whole trace is nondecreasing in the pipeline phase order (pragma 0,
table creation 1, attach 2, copies 3, detach 4, non-table objects 5,
upfront count 6, per-tile writes 7, finalization 8-10). -/
theorem c5_replication_order (dF : Bytes → String) (c : Codec) (src : SourceDb) :
    monoFrom 0 ((run dF c src).ops.map opPhase) = true := by
  have hops : (run dF c src).ops.map opPhase
      = 0 :: ((tableCreateOps src.schema).map opPhase
        ++ (2 :: ((copyTableOps src.schema).map opPhase
          ++ (4 :: ((nonTableOps src.schema).map opPhase
            ++ (6 :: ((transcodeOps dF c src.tiles).map opPhase
              ++ [8, 9, 10]))))))) := by
    simp [run, schemaOps, List.map_append, List.append_assoc, opPhase]
  rw [hops]
  simp only [monoFrom, Bool.and_eq_true, decide_eq_true_eq]
  refine ⟨Nat.le_refl 0, ?_⟩
  refine monoFrom_const_append _ _ 1 0 (tableCreateOps_phase src.schema) (by omega) ?_
  simp only [monoFrom, Bool.and_eq_true, decide_eq_true_eq]
  refine ⟨by omega, ?_⟩
  refine monoFrom_const_append _ _ 3 2 (copyTableOps_phase src.schema) (by omega) ?_
  simp only [monoFrom, Bool.and_eq_true, decide_eq_true_eq]
  refine ⟨by omega, ?_⟩
  refine monoFrom_const_append _ _ 5 4 (nonTableOps_phase src.schema) (by omega) ?_
  simp only [monoFrom, Bool.and_eq_true, decide_eq_true_eq]
  refine ⟨by omega, ?_⟩
  refine monoFrom_const_append _ _ 7 6 (transcodeOps_phase dF c src.tiles) (by omega) ?_
  decide

/-- Claim C5 amended, witness at a concrete archive. -/
theorem c5_replication_order_witness :
    monoFrom 0 ((run dF0 c0 src3).ops.map opPhase) = true :=
  c5_replication_order dF0 c0 src3

/-- Claim C1, witness: on a concrete one-tile run the destination's single
reference row resolves to an image row, and the trace check evaluates to
true. -/
theorem c1_referential_integrity_witness :
    (∃ b, ("d", b) ∈ (run dF0 c0 src2).state.images)
    ∧ checkIntegrityTrace (run dF0 c0 src2).ops = true :=
  ⟨(c1_referential_integrity dF0 c0 src2).1 ⟨0, 0, 0, "d", none⟩ (by decide),
   (c1_referential_integrity dF0 c0 src2).2⟩

/-- Claim C2, witness at a concrete run. -/
theorem c2_dedup_idempotent_witness :
    ((run dF0 c0 src2).state.images.map Prod.fst).Nodup
    ∧ ("d" ∈ (run dF0 c0 src2).state.images.map Prod.fst
        ↔ "d" ∈ successDigests dF0 c0 src2.tiles) :=
  ⟨(c2_dedup_idempotent dF0 c0 src2).1, (c2_dedup_idempotent dF0 c0 src2).2.1 "d"⟩

/-- Claim C6: in every run with concurrency bound N (1 ≤ N ≤ 100), every
state reachable by the admission loop has at most N tasks in flight, and
from a state with exactly N in flight the only possible step is a task
completion (admission is suspended until an in-flight task completes). -/
theorem c6_concurrency_bound (N p : Nat) (s t : LimState)
    (_hN1 : 1 ≤ N) (_hN2 : N ≤ 100) (hreach : LimReachable N p s) :
    s.active ≤ N ∧ (s.active = N → LimStep N s t → t.active < s.active) := by
  constructor
  · unfold LimReachable at hreach
    induction hreach with
    | refl => exact Nat.zero_le N
    | tail hsteps hstep ih =>
      cases hstep with
      | start p2 a h => exact h
      | complete p2 a => exact Nat.le_of_succ_le ih
  · intro hfull hstep
    cases hstep with
    | start p2 a h =>
      exfalso
      have h1 : a = N := hfull
      omega
    | complete p2 a => exact Nat.lt_succ_self a

/-- Claim C6, witness: with bound 1 and two pending tiles, the state after
one admission is reachable, has at most one active task, and a completion
from the full state strictly decreases the active count. -/
theorem c6_concurrency_bound_witness :
    (⟨1, 1⟩ : LimState).active ≤ 1
    ∧ ((⟨1, 1⟩ : LimState).active = 1 → LimStep 1 ⟨1, 1⟩ ⟨1, 0⟩
        → (⟨1, 0⟩ : LimState).active < (⟨1, 1⟩ : LimState).active) :=
  c6_concurrency_bound 1 2 ⟨1, 1⟩ ⟨1, 0⟩ (by decide) (by decide)
    (Relation.ReflTransGen.single (LimStep.start 1 0 (by decide)))

/-- Claim C7: per-item failures are isolated — every tile that transcodes
successfully gets its reference row written no matter which other tiles
fail, each failed tile is counted and a warning with its coordinates and
reason is recorded, every source tile is processed, and when the failed
count is nonzero, the end-of-run summary reports it (the run itself
returns normally, so the process outcome is success). -/
theorem c7_failure_isolation (dF : Bytes → String) (c : Codec) (src : SourceDb) :
    (∀ t ∈ src.tiles, ∀ b, c t.tile_data = Except.ok b →
        (⟨t.zoom_level, t.tile_column, t.tile_row, dF b, none⟩ : MapRow)
          ∈ (run dF c src).state.map)
    ∧ (run dF c src).state.failed = (src.tiles.filter (tileFails c)).length
    ∧ (∀ t ∈ src.tiles, ∀ m, c t.tile_data = Except.error m →
        (t.zoom_level, t.tile_column, t.tile_row, m) ∈ (run dF c src).state.warnings)
    ∧ (run dF c src).state.processed = src.tiles.length
    ∧ ((run dF c src).state.failed ≠ 0 →
        summaryWarning (run dF c src).state = some (run dF c src).state.failed) := by
  refine ⟨?_, run_state_failed dF c src, ?_, run_state_processed dF c src, ?_⟩
  · intro t ht b hb
    rw [run_state_map]
    exact List.mem_filterMap.mpr ⟨t, ht, by simp [rowFor, hb]⟩
  · intro t ht m hm
    rw [run_state_warnings]
    exact List.mem_filterMap.mpr ⟨t, ht, by simp [warnFor, hm]⟩
  · intro h
    unfold summaryWarning
    rw [if_pos (Nat.pos_of_ne_zero h)]

/-- Claim C7, witness: a two-tile run where the first tile fails — the
second tile's reference row is still written, the failure is recorded
with its coordinates and reason, and the summary reports the nonzero
failed count. -/
theorem c7_failure_isolation_witness :
    ((⟨0, 0, 0, "d", none⟩ : MapRow) ∈ (run dF0 cMix src5).state.map)
    ∧ ((1, 2, 3, "boom") ∈ (run dF0 cMix src5).state.warnings)
    ∧ summaryWarning (run dF0 cMix src5).state = some (run dF0 cMix src5).state.failed :=
  ⟨(c7_failure_isolation dF0 cMix src5).1 t1 (by decide) [1] rfl,
   (c7_failure_isolation dF0 cMix src5).2.2.1 tf (by decide) "boom" rfl,
   (c7_failure_isolation dF0 cMix src5).2.2.2.2 (by decide)⟩

/-- Claim C8: every configuration error — out-of-range or non-numeric
quality, alpha quality, method or concurrency, missing or non-file
source, or destination collision without the overwrite flag — makes the
CLI action throw before performing any filesystem mutation or opening
any archive (the effects list is empty; the collision check runs after
the conditional `mkdirSync`, but on a coherent filesystem an existing
destination implies an existing parent directory, so nothing was
created). -/
theorem c8_config_errors_rejected (dirname : String → String) (fs : Fs)
    (source destination : String) (o : Options)
    (hwf : fs.existsSync destination = true → fs.existsSync (dirname destination) = true)
    (hbad : invalidConfig fs source destination o = true) :
    (cliAction dirname fs source destination o).1 = []
    ∧ ∃ msg, (cliAction dirname fs source destination o).2 = Except.error msg := by
  unfold cliAction
  cases hq : intInRange o.quality 0 100
  case false =>
    exact ⟨by simp [hq], "Quality must be a number between 0 and 100", by simp [hq]⟩
  case true =>
  cases ha : intInRange o.alphaQuality 0 100
  case false =>
    exact ⟨by simp [hq, ha], "Alpha quality must be a number between 0 and 100",
      by simp [hq, ha]⟩
  case true =>
  cases hm : intInRange o.method 0 6
  case false =>
    exact ⟨by simp [hq, ha, hm], "Method must be a number between 0 and 6",
      by simp [hq, ha, hm]⟩
  case true =>
  cases hc : intInRange o.concurrency 1 100
  case false =>
    exact ⟨by simp [hq, ha, hm, hc], "Concurrency must be a number between 1 and 100",
      by simp [hq, ha, hm, hc]⟩
  case true =>
  cases hs : fs.existsSync source
  case false =>
    exact ⟨by simp [hq, ha, hm, hc, hs], "Source file does not exist",
      by simp [hq, ha, hm, hc, hs]⟩
  case true =>
  cases hif : fs.isFile source
  case false =>
    exact ⟨by simp [hq, ha, hm, hc, hs, hif], "Source path is not a file",
      by simp [hq, ha, hm, hc, hs, hif]⟩
  case true =>
  cases hdst : fs.existsSync destination
  case false =>
    exfalso
    simp [invalidConfig, hq, ha, hm, hc, hs, hif, hdst] at hbad
  case true =>
  cases hforce : o.force
  case true =>
    exfalso
    simp [invalidConfig, hq, ha, hm, hc, hs, hif, hdst, hforce] at hbad
  case false =>
    have hdd := hwf hdst
    exact ⟨by simp [hq, ha, hm, hc, hs, hif, hdst, hforce, hdd],
      "Destination already exists",
      by simp [hq, ha, hm, hc, hs, hif, hdst, hforce, hdd]⟩

/-- Claim C8, witness: `quality = 150` is rejected before any filesystem
effect or archive open. -/
theorem c8_config_errors_rejected_witness :
    (cliAction dirname0 fs0 "in.mbtiles" "out.mbtiles" o150).1 = []
    ∧ ∃ msg, (cliAction dirname0 fs0 "in.mbtiles" "out.mbtiles" o150).2
        = Except.error msg :=
  c8_config_errors_rejected dirname0 fs0 "in.mbtiles" "out.mbtiles" o150
    (fun _ => rfl) (by decide)
